import Mathlib

/-!
# Verification of the prospectivity-heatmap core

Shallow embedding of the hex-grid distance-field and scoring engine of the
`prospectivity-heatmap` repository (files `src/prospectivity_tools/distance.py`,
`score.py`, `geospatial.py`, `config.py`), together with proofs about it.

Modelling conventions:
* H3 cell identifiers are an opaque type `Cell` with decidable equality; the
  H3 tiling at one fixed resolution is globally finite, so `Cell` carries a
  `Fintype` instance where the breadth-first search needs it.
* `h3.k_ring(h, 1)` is an external library call; it is modelled as an abstract
  neighbour function `nbrs : Cell → List Cell` passed as a parameter.
* Python floats are modelled as real numbers; a float that may be NaN
  (`steps.get(h, math.nan)` and everything arithmetic downstream of it) is
  modelled as `Option ℝ` with `none` for NaN, and the arithmetic on it
  propagates `none` exactly as IEEE arithmetic propagates NaN through
  `*`, `/`, `**` and `exp`.
* Python dicts written with first-write-wins discipline (the BFS `dist` map)
  are association lists consulted with `alookup`, which returns the first
  binding; the code only ever appends bindings for keys that are absent, so
  append is faithful to dict insertion.
* The pandas frames are lists of per-row records (`GridRow`, `DistRow`,
  `ScoreRow` mirror the column sets the code builds at each stage).
-/

namespace Prospectivity

/-- First-binding association-list lookup: the model of reading a Python dict
that is only ever extended with fresh keys. -/
def alookup {α β : Type} [DecidableEq α] : List (α × β) → α → Option β
  | [], _ => none
  | p :: rest, a => if a = p.1 then some p.2 else alookup rest a

theorem alookup_append_some {α β : Type} [DecidableEq α] {xs ys : List (α × β)} {a : α} {v : β}
    (h : alookup xs a = some v) : alookup (xs ++ ys) a = some v := by
  induction xs with
  | nil => simp [alookup] at h
  | cons p rest ih =>
    by_cases hpa : a = p.1
    · simpa [alookup, hpa] using h
    · simp only [alookup, hpa, if_false, List.cons_append, if_neg] at h ⊢
      exact ih h

theorem alookup_append_none {α β : Type} [DecidableEq α] {xs : List (α × β)} (ys : List (α × β))
    {a : α} (h : alookup xs a = none) : alookup (xs ++ ys) a = alookup ys a := by
  induction xs with
  | nil => simp [alookup]
  | cons p rest ih =>
    by_cases hpa : a = p.1
    · simp [alookup, hpa] at h
    · simp only [alookup, hpa, if_false, List.cons_append, if_neg] at h ⊢
      exact ih h

theorem alookup_eq_none_iff {α β : Type} [DecidableEq α] {xs : List (α × β)} {a : α} :
    alookup xs a = none ↔ a ∉ xs.map Prod.fst := by
  induction xs with
  | nil => simp [alookup]
  | cons p rest ih =>
    by_cases hpa : a = p.1 <;> simp [alookup, hpa, ih]

theorem alookup_map_pair {α β : Type} [DecidableEq α] (l : List α) (v0 : β) (a : α) :
    alookup (l.map (fun s => (s, v0))) a = if a ∈ l then some v0 else none := by
  induction l with
  | nil => simp [alookup]
  | cons x xs ih =>
    by_cases hax : a = x <;> simp [alookup, hax, ih]

/-! ## Data model: grid rows at the three pipeline stages -/

/-- A row of the grid built by `build_grid`: columns `h3_id`, `intersects_a`,
`intersects_b`. -/
structure GridRow (Cell : Type) where
  h3_id : Cell
  intersects_a : Bool
  intersects_b : Bool
deriving DecidableEq

/-- A row after `add_distance_columns`: the grid columns plus `dist_a`,
`dist_b` in metres; `none` is NaN (no value). -/
structure DistRow (Cell : Type) where
  h3_id : Cell
  intersects_a : Bool
  intersects_b : Bool
  dist_a : Option ℝ
  dist_b : Option ℝ

/-- A row of the frame returned by `compute_likelihood`, in the column order
`df[["h3_id", "score", "intersects_a", "intersects_b"]]` of the source. -/
structure ScoreRow (Cell : Type) where
  h3_id : Cell
  score : Option ℝ
  intersects_a : Bool
  intersects_b : Bool

/-! ## Scoring engine (`score.py`) -/

/-- `score.gaussian`: `np.exp(-((d / d0_m) ** alpha))` on defined (non-NaN)
inputs; real powers model the numpy float power. -/
noncomputable def gaussian (d d0_m alpha : ℝ) : ℝ :=
  Real.exp (-((d / d0_m) ^ alpha))

/-- `score.linear`: `np.clip(1 - (d / d0_m), 0, 1)`; `np.clip(x, lo, hi)` is
`min (max x lo) hi`. -/
noncomputable def linear (d d0_m : ℝ) : ℝ :=
  min (max (1 - d / d0_m) 0) 1

/-- `gaussian` lifted to a possibly-NaN distance: `exp`, `/` and `**` all map
NaN to NaN, so a `none` input gives a `none` output. -/
noncomputable def gaussianO (d : Option ℝ) (d0_m alpha : ℝ) : Option ℝ :=
  d.map (fun x => gaussian x d0_m alpha)

/-- Float multiplication on possibly-NaN values: NaN times anything is NaN. -/
def omul (a b : Option ℝ) : Option ℝ :=
  a.bind (fun x => b.map (fun y => x * y))

/-- One row of `compute_likelihood`: `score_a * score_b` with
`score_t = gaussian(dist_t, d0_m, alpha)`, `d0_m = settings.falloff_km * 1000`.
The configured `settings.weight_a` is not read by the source. -/
noncomputable def score_row {Cell : Type} (falloff_km alpha : ℝ) (r : DistRow Cell) :
    ScoreRow Cell :=
  { h3_id := r.h3_id
    score := omul (gaussianO r.dist_a (falloff_km * 1000) alpha)
                  (gaussianO r.dist_b (falloff_km * 1000) alpha)
    intersects_a := r.intersects_a
    intersects_b := r.intersects_b }

/-- `score.compute_likelihood`: per-cell score over the whole frame, returning
columns `h3_id`, `score`, `intersects_a`, `intersects_b`. The module-level
`settings` singleton is threaded as the parameters `falloff_km`, `alpha`. -/
noncomputable def compute_likelihood {Cell : Type} (falloff_km alpha : ℝ)
    (df : List (DistRow Cell)) : List (ScoreRow Cell) :=
  df.map (score_row falloff_km alpha)

/-! ## Distance field engine (`distance.py`): multi-source BFS -/

section BFS

variable {Cell : Type} [DecidableEq Cell]

/-- The truthiness test of `if allowed and nb not in allowed: continue`:
a neighbour passes when `allowed` is `None`, when the set `allowed` is empty
(a Python empty set is falsy, so the whole guard is skipped), or when the
neighbour is a member of `allowed`. -/
def passes (allowed : Option (Finset Cell)) (c : Cell) : Bool :=
  match allowed with
  | none => true
  | some A => if A = ∅ then true else decide (c ∈ A)

/-- The inner `for nb in h3.k_ring(h, 1)` loop body of `hex_step_distances`:
skip a neighbour that fails the `allowed` guard or is already in `dist`,
otherwise record `dist[nb] = d + 1` and append `nb` to the queue. -/
def scanNbrs (pass : Cell → Bool) (d : ℕ) :
    List Cell → List (Cell × ℕ) → List Cell → List (Cell × ℕ) × List Cell
  | [], dist, q => (dist, q)
  | nb :: rest, dist, q =>
    if pass nb = true ∧ alookup dist nb = none then
      scanNbrs pass d rest (dist ++ [(nb, d + 1)]) (q ++ [nb])
    else
      scanNbrs pass d rest dist q

/-- `d = dist[h]`: reading the recorded step count of a queued cell. The BFS
invariant guarantees the key is present, so the `getD 0` default is never the
value actually read on any state the loop reaches. -/
def sval (dist : List (Cell × ℕ)) (c : Cell) : ℕ :=
  (alookup dist c).getD 0

/-- The `while q:` loop of `hex_step_distances`. The Python loop terminates
because the H3 tiling at one resolution is finite; here the same fact is made
explicit with a fuel argument that provably suffices (`bfsLoop_inv`). -/
def bfsLoop (nbrs : Cell → List Cell) (pass : Cell → Bool) :
    ℕ → List (Cell × ℕ) → List Cell → List (Cell × ℕ)
  | 0, dist, _ => dist
  | _ + 1, dist, [] => dist
  | fuel + 1, dist, h :: q =>
    bfsLoop nbrs pass fuel
      (scanNbrs pass (sval dist h) (nbrs h) dist q).1
      (scanNbrs pass (sval dist h) (nbrs h) dist q).2

/-- BFS entry: `dist = {h: 0 for h in sources}; q = deque(sources)` followed by
the while loop. Fuel `sources.length + Fintype.card Cell` bounds the number of
iterations (each iteration pops one queue entry; entries are the initial
sources plus at most one enqueue per distinct cell). -/
def bfsRun [Fintype Cell] (nbrs : Cell → List Cell) (pass : Cell → Bool)
    (sources : List Cell) : List (Cell × ℕ) :=
  bfsLoop nbrs pass (sources.length + Fintype.card Cell)
    (sources.map (fun s => (s, 0))) sources

/-- `distance.hex_step_distances(sources, allowed_cells)`: the returned dict,
as an association list from cells to step counts. `nbrs` models
`h3.k_ring(·, 1)`. -/
def hex_step_distances [Fintype Cell] (nbrs : Cell → List Cell)
    (sources : List Cell) (allowed : Option (Finset Cell)) : List (Cell × ℕ) :=
  bfsRun nbrs (passes allowed) sources

/-- `ReachN nbrs pass s c k`: there is a walk of `k` hex-adjacency steps from
`s` to `c` every step of which lands on a cell satisfying `pass` — the notion
of a path the BFS explores. -/
inductive ReachN (nbrs : Cell → List Cell) (pass : Cell → Bool) :
    Cell → Cell → ℕ → Prop
  | refl (c : Cell) : ReachN nbrs pass c c 0
  | step {s c nb : Cell} {n : ℕ} : ReachN nbrs pass s c n → nb ∈ nbrs c →
      pass nb = true → ReachN nbrs pass s nb (n + 1)

theorem alookup_singleton {α β : Type} [DecidableEq α] (k : α) (v : β) (a : α) :
    alookup [(k, v)] a = if a = k then some v else none := by
  simp [alookup]

theorem alookup_none_of_append_none {α β : Type} [DecidableEq α] {xs ys : List (α × β)} {a : α}
    (h : alookup (xs ++ ys) a = none) : alookup xs a = none := by
  cases hx : alookup xs a with
  | none => rfl
  | some v => rw [alookup_append_some hx] at h; cases h

/-- What one pass over a neighbour list does: it appends some list `news` of
fresh, passing neighbours to both the distance map (at value `d + 1`) and the
queue, and afterwards every passing neighbour is recorded. -/
theorem scanNbrs_spec (pass : Cell → Bool) (d : ℕ) :
    ∀ (nbs : List Cell) (dist : List (Cell × ℕ)) (q : List Cell),
      ∃ news : List Cell,
        (scanNbrs pass d nbs dist q).1 = dist ++ news.map (fun c => (c, d + 1)) ∧
        (scanNbrs pass d nbs dist q).2 = q ++ news ∧
        news.Nodup ∧
        (∀ c ∈ news, c ∈ nbs ∧ pass c = true ∧ alookup dist c = none) ∧
        (∀ c ∈ nbs, pass c = true → alookup (scanNbrs pass d nbs dist q).1 c ≠ none) := by
  intro nbs
  induction nbs with
  | nil =>
    intro dist q
    exact ⟨[], by simp [scanNbrs], by simp [scanNbrs], List.nodup_nil, by simp, by simp⟩
  | cons nb rest ih =>
    intro dist q
    by_cases hcond : pass nb = true ∧ alookup dist nb = none
    · have heq : scanNbrs pass d (nb :: rest) dist q
          = scanNbrs pass d rest (dist ++ [(nb, d + 1)]) (q ++ [nb]) := by
        simp [scanNbrs, hcond]
      obtain ⟨news₁, h1, h2, h3, h4, h5⟩ := ih (dist ++ [(nb, d + 1)]) (q ++ [nb])
      have hnb_rec : alookup (dist ++ [(nb, d + 1)]) nb = some (d + 1) := by
        rw [alookup_append_none _ hcond.2, alookup_singleton, if_pos rfl]
      refine ⟨nb :: news₁, ?_, ?_, ?_, ?_, ?_⟩
      · rw [heq, h1, List.map_cons, List.append_assoc]; rfl
      · rw [heq, h2, List.append_assoc]; rfl
      · refine List.nodup_cons.mpr ⟨fun hmem => ?_, h3⟩
        have := (h4 nb hmem).2.2
        rw [hnb_rec] at this; cases this
      · intro c hc
        rcases List.mem_cons.mp hc with rfl | hc₁
        · exact ⟨List.mem_cons_self _ _, hcond.1, hcond.2⟩
        · obtain ⟨hr, hp, hl⟩ := h4 c hc₁
          exact ⟨List.mem_cons_of_mem _ hr, hp, alookup_none_of_append_none hl⟩
      · intro c hc hp
        rcases List.mem_cons.mp hc with rfl | hc₁
        · rw [heq, h1, alookup_append_some hnb_rec]; simp
        · rw [heq]; exact h5 c hc₁ hp
    · have heq : scanNbrs pass d (nb :: rest) dist q = scanNbrs pass d rest dist q := by
        simp [scanNbrs, hcond]
      obtain ⟨news₁, h1, h2, h3, h4, h5⟩ := ih dist q
      refine ⟨news₁, by rw [heq, h1], by rw [heq, h2], h3, ?_, ?_⟩
      · intro c hc
        obtain ⟨hr, hp, hl⟩ := h4 c hc
        exact ⟨List.mem_cons_of_mem _ hr, hp, hl⟩
      · intro c hc hp
        rcases List.mem_cons.mp hc with rfl | hc₁
        · cases hl : alookup dist c with
          | none => exact absurd ⟨hp, hl⟩ hcond
          | some v => rw [heq, h1, alookup_append_some hl]; simp
        · rw [heq]; exact h5 c hc₁ hp

/-- Decomposing a lookup in the post-scan distance map: the value is either an
old binding or `d + 1` on a newly recorded cell. -/
theorem alookup_shape {dist : List (Cell × ℕ)} {news : List Cell} {d : ℕ} {c : Cell} {v : ℕ}
    (h : alookup (dist ++ news.map (fun c => (c, d + 1))) c = some v) :
    alookup dist c = some v ∨ (c ∈ news ∧ v = d + 1) := by
  cases hx : alookup dist c with
  | some w =>
    rw [alookup_append_some hx] at h
    injection h with h
    subst h
    exact Or.inl rfl
  | none =>
    rw [alookup_append_none _ hx, alookup_map_pair] at h
    by_cases hm : c ∈ news
    · rw [if_pos hm] at h; exact Or.inr ⟨hm, by injection h with h; omega⟩
    · rw [if_neg hm] at h; cases h

/-- A newly recorded cell reads back `d + 1`. -/
theorem alookup_shape_new {dist : List (Cell × ℕ)} {news : List Cell} {d : ℕ} {c : Cell}
    (hnone : alookup dist c = none) (hm : c ∈ news) :
    alookup (dist ++ news.map (fun c => (c, d + 1))) c = some (d + 1) := by
  rw [alookup_append_none _ hnone, alookup_map_pair, if_pos hm]

theorem alookup_eq_sval {dist : List (Cell × ℕ)} {c : Cell} (h : alookup dist c ≠ none) :
    alookup dist c = some (sval dist c) := by
  cases hx : alookup dist c with
  | none => exact absurd hx h
  | some v => simp [sval, hx]

theorem chain'_le_of_const (l : List ℕ) (k : ℕ) (h : ∀ x ∈ l, x = k) :
    List.Chain' (· ≤ ·) l := by
  induction l with
  | nil => simp
  | cons a t ih =>
    refine List.chain'_cons'.mpr ⟨?_, ih fun x hx => h x (List.mem_cons_of_mem _ hx)⟩
    intro y hy
    rw [h a (List.mem_cons_self _ _),
      h y (List.mem_cons_of_mem _ (List.mem_of_mem_head? hy))]

/-- The loop invariant of the multi-source BFS on state `(dist, q)`:
recorded keys are distinct; the queue has no duplicates and only recorded
cells; every recorded value is witnessed by a walk of exactly that length
from some source (`sound`); every source is recorded at 0 and never
overwritten (`src0`); every processed (recorded, dequeued) cell has all its
passing neighbours recorded within value + 1 (`relaxed`); recorded queue
values are non-decreasing along the queue (`qChain`) and every recorded value
is at most the front value + 1 (`qBound`). -/
structure BfsInv (nbrs : Cell → List Cell) (pass : Cell → Bool) (sources : List Cell)
    (dist : List (Cell × ℕ)) (q : List Cell) : Prop where
  keysNodup : (dist.map Prod.fst).Nodup
  qNodup : q.Nodup
  qRec : ∀ c ∈ q, alookup dist c ≠ none
  sound : ∀ c n, alookup dist c = some n → ∃ s ∈ sources, ReachN nbrs pass s c n
  src0 : ∀ s ∈ sources, alookup dist s = some 0
  relaxed : ∀ c n, alookup dist c = some n → c ∉ q →
      ∀ nb ∈ nbrs c, pass nb = true → ∃ m, m ≤ n + 1 ∧ alookup dist nb = some m
  qChain : List.Chain' (· ≤ ·) (q.map (sval dist))
  qBound : ∀ x, q.head? = some x → ∀ c n, alookup dist c = some n → n ≤ sval dist x + 1

/-- The initial state `dist = {h: 0 for h in sources}`, `q = deque(sources)`
satisfies the invariant. -/
theorem bfsInv_init (nbrs : Cell → List Cell) (pass : Cell → Bool) (sources : List Cell)
    (hnd : sources.Nodup) :
    BfsInv nbrs pass sources (sources.map (fun s => (s, 0))) sources := by
  have hinit : ∀ c, alookup (sources.map (fun s => (s, 0))) c
      = if c ∈ sources then some 0 else none := fun c => alookup_map_pair sources 0 c
  constructor
  · rw [List.map_map]
    have hid : Prod.fst ∘ (fun s : Cell => (s, 0)) = id := rfl
    rw [hid, List.map_id]
    exact hnd
  · exact hnd
  · intro c hc; rw [hinit c, if_pos hc]; simp
  · intro c n h
    by_cases hc : c ∈ sources
    · rw [hinit c, if_pos hc] at h
      injection h with h
      exact ⟨c, hc, by rw [← h]; exact ReachN.refl c⟩
    · rw [hinit c, if_neg hc] at h; cases h
  · intro s hs; rw [hinit s, if_pos hs]
  · intro c n h hnotq
    by_cases hc : c ∈ sources
    · exact absurd hc hnotq
    · rw [hinit c, if_neg hc] at h; cases h
  · apply chain'_le_of_const _ 0
    intro x hx
    obtain ⟨c, hc, rfl⟩ := List.mem_map.mp hx
    simp [sval, hinit c, hc]
  · intro x _ c n h
    by_cases hc : c ∈ sources
    · rw [hinit c, if_pos hc] at h; injection h with h; omega
    · rw [hinit c, if_neg hc] at h; cases h

/-- One iteration of the `while q:` loop (pop `h`, scan its k-ring) preserves
the invariant, and extends the distance map and the queue by the same number
of cells. -/
theorem bfsInv_step {nbrs : Cell → List Cell} {pass : Cell → Bool} {sources : List Cell}
    {dist : List (Cell × ℕ)} {h : Cell} {q : List Cell}
    (inv : BfsInv nbrs pass sources dist (h :: q)) :
    BfsInv nbrs pass sources
        (scanNbrs pass (sval dist h) (nbrs h) dist q).1
        (scanNbrs pass (sval dist h) (nbrs h) dist q).2
      ∧ ∃ p, (scanNbrs pass (sval dist h) (nbrs h) dist q).1.length = dist.length + p
           ∧ (scanNbrs pass (sval dist h) (nbrs h) dist q).2.length = q.length + p := by
  obtain ⟨news, h1, h2, h3, h4, h5⟩ := scanNbrs_spec pass (sval dist h) (nbrs h) dist q
  have hd : alookup dist h = some (sval dist h) :=
    alookup_eq_sval (inv.qRec h (List.mem_cons_self _ _))
  have hext : ∀ {c v}, alookup dist c = some v →
      alookup (scanNbrs pass (sval dist h) (nbrs h) dist q).1 c = some v := by
    intro c v hv; rw [h1]; exact alookup_append_some hv
  have hchar : ∀ {c v}, alookup (scanNbrs pass (sval dist h) (nbrs h) dist q).1 c = some v →
      alookup dist c = some v ∨ (c ∈ news ∧ v = sval dist h + 1) := by
    intro c v hv; rw [h1] at hv; exact alookup_shape hv
  have hnew : ∀ {c}, c ∈ news →
      alookup (scanNbrs pass (sval dist h) (nbrs h) dist q).1 c = some (sval dist h + 1) := by
    intro c hc; rw [h1]; exact alookup_shape_new (h4 c hc).2.2 hc
  have hboundold : ∀ c n, alookup dist c = some n → n ≤ sval dist h + 1 :=
    fun c n hn => inv.qBound h rfl c n hn
  have hfreshq : ∀ c ∈ news, c ∉ q := fun c hc hq =>
    inv.qRec c (List.mem_cons_of_mem _ hq) (h4 c hc).2.2
  have hsvq : ∀ c ∈ q, sval (scanNbrs pass (sval dist h) (nbrs h) dist q).1 c = sval dist c := by
    intro c hc
    have hrec := inv.qRec c (List.mem_cons_of_mem _ hc)
    rw [sval, hext (alookup_eq_sval hrec)]
    rfl
  have hsvnews : ∀ c ∈ news,
      sval (scanNbrs pass (sval dist h) (nbrs h) dist q).1 c = sval dist h + 1 := by
    intro c hc
    rw [sval, hnew hc]
    rfl
  refine ⟨⟨?_, ?_, ?_, ?_, ?_, ?_, ?_, ?_⟩,
    ⟨news.length, by rw [h1]; simp, by rw [h2]; simp⟩⟩
  · -- keysNodup
    rw [h1, List.map_append, List.map_map]
    have hid : Prod.fst ∘ (fun c : Cell => (c, sval dist h + 1)) = id := rfl
    rw [hid, List.map_id]
    refine inv.keysNodup.append h3 ?_
    intro a ha hnews
    exact (alookup_eq_none_iff.mp (h4 a hnews).2.2) ha
  · -- qNodup
    rw [h2]
    refine (inv.qNodup.of_cons).append h3 ?_
    intro a ha hnews
    exact hfreshq a hnews ha
  · -- qRec
    intro c hc
    rw [h2] at hc
    rcases List.mem_append.mp hc with hcq | hcn
    · rw [hext (alookup_eq_sval (inv.qRec c (List.mem_cons_of_mem _ hcq)))]; simp
    · rw [hnew hcn]; simp
  · -- sound
    intro c n hc
    rcases hchar hc with hold | ⟨hcn, rfl⟩
    · exact inv.sound c n hold
    · obtain ⟨s, hs, hr⟩ := inv.sound h (sval dist h) hd
      exact ⟨s, hs, hr.step (h4 c hcn).1 (h4 c hcn).2.1⟩
  · -- src0
    intro s hs
    exact hext (inv.src0 s hs)
  · -- relaxed
    intro c n hc hnq nb hnb hp
    rcases hchar hc with hold | ⟨hcn, rfl⟩
    · by_cases hch : c = h
      · subst hch
        have hnd' : n = sval dist c := by
          rw [hd] at hold; injection hold with hold; omega
        cases hl : alookup (scanNbrs pass (sval dist c) (nbrs c) dist q).1 nb with
        | none => exact absurd hl (h5 nb hnb hp)
        | some m =>
          rcases hchar hl with holdm | ⟨_, rfl⟩
          · exact ⟨m, by have := hboundold nb m holdm; omega, rfl⟩
          · exact ⟨sval dist c + 1, by omega, rfl⟩
      · have hnotq : c ∉ h :: q := by
          intro hmem
          rcases List.mem_cons.mp hmem with rfl | hq
          · exact hch rfl
          · exact hnq (by rw [h2]; exact List.mem_append_left _ hq)
        obtain ⟨m, hm, hlm⟩ := inv.relaxed c n hold hnotq nb hnb hp
        exact ⟨m, hm, hext hlm⟩
    · exact absurd (by rw [h2]; exact List.mem_append_right _ hcn) hnq
  · -- qChain
    rw [h2, List.map_append]
    refine List.Chain'.append ?_ ?_ ?_
    · rw [List.map_congr_left hsvq]
      have := inv.qChain
      rw [List.map_cons] at this
      exact this.tail
    · rw [List.map_congr_left hsvnews]
      refine chain'_le_of_const _ (sval dist h + 1) ?_
      intro x hx
      obtain ⟨c, _, rfl⟩ := List.mem_map.mp hx
      rfl
    · intro x hx y hy
      obtain ⟨c, hc, rfl⟩ :=
        List.mem_map.mp (List.mem_of_getLast?_eq_some (Option.mem_def.mp hx))
      obtain ⟨c', hc', rfl⟩ := List.mem_map.mp (List.mem_of_mem_head? hy)
      rw [hsvq c hc, hsvnews c' hc']
      have hrec := inv.qRec c (List.mem_cons_of_mem _ hc)
      exact hboundold c _ (alookup_eq_sval hrec)
  · -- qBound
    intro x hx c n hc
    have hnle : n ≤ sval dist h + 1 := by
      rcases hchar hc with hold | ⟨_, rfl⟩
      · exact hboundold c n hold
      · omega
    have hxge : sval dist h ≤ sval (scanNbrs pass (sval dist h) (nbrs h) dist q).1 x := by
      cases q with
      | nil =>
        have hxm : x ∈ news := by
          rw [h2] at hx
          simp only [List.nil_append] at hx
          exact List.mem_of_mem_head? hx
        rw [hsvnews x hxm]
        omega
      | cons h₂ q₂ =>
        have hx2 : x = h₂ := by
          rw [h2] at hx
          simp only [List.cons_append, List.head?_cons] at hx
          injection hx with hx
          exact hx.symm
        subst hx2
        rw [hsvq x (List.mem_cons_self _ _)]
        have hchain := inv.qChain
        rw [List.map_cons, List.map_cons] at hchain
        exact (List.chain'_cons.mp hchain).1
    omega

theorem bfsLoop_empty_queue (nbrs : Cell → List Cell) (pass : Cell → Bool) :
    ∀ (fuel : ℕ) (dist : List (Cell × ℕ)), bfsLoop nbrs pass fuel dist [] = dist
  | 0, _ => rfl
  | _ + 1, _ => rfl

/-- Values already recorded are never overwritten by the rest of the loop:
`dist[nb] = d + 1` is only executed under `if nb not in dist`. -/
theorem bfsLoop_extends (nbrs : Cell → List Cell) (pass : Cell → Bool) :
    ∀ (fuel : ℕ) (dist : List (Cell × ℕ)) (q : List Cell) (c : Cell) (v : ℕ),
      alookup dist c = some v → alookup (bfsLoop nbrs pass fuel dist q) c = some v := by
  intro fuel
  induction fuel with
  | zero => intro dist q c v hv; exact hv
  | succ f ih =>
    intro dist q c v hv
    cases q with
    | nil => exact hv
    | cons h q =>
      show alookup (bfsLoop nbrs pass f
        (scanNbrs pass (sval dist h) (nbrs h) dist q).1
        (scanNbrs pass (sval dist h) (nbrs h) dist q).2) c = some v
      obtain ⟨news, h1, _, _, _, _⟩ := scanNbrs_spec pass (sval dist h) (nbrs h) dist q
      exact ih _ _ c v (by rw [h1]; exact alookup_append_some hv)

/-- With fuel at least `q.length + (card Cell − dist.length)` the loop drains
the queue completely, ending in an invariant state with an empty queue. -/
theorem bfsLoop_inv [Fintype Cell] (nbrs : Cell → List Cell) (pass : Cell → Bool)
    (sources : List Cell) :
    ∀ (fuel : ℕ) (dist : List (Cell × ℕ)) (q : List Cell),
      BfsInv nbrs pass sources dist q →
      q.length + (Fintype.card Cell - dist.length) ≤ fuel →
      BfsInv nbrs pass sources (bfsLoop nbrs pass fuel dist q) [] := by
  intro fuel
  induction fuel with
  | zero =>
    intro dist q inv hfuel
    have hq : q = [] := by
      cases q with
      | nil => rfl
      | cons a t => simp at hfuel
    subst hq
    exact inv
  | succ f ih =>
    intro dist q inv hfuel
    cases q with
    | nil => exact inv
    | cons h q =>
      obtain ⟨inv', p, hp1, hp2⟩ := bfsInv_step inv
      show BfsInv nbrs pass sources (bfsLoop nbrs pass f
        (scanNbrs pass (sval dist h) (nbrs h) dist q).1
        (scanNbrs pass (sval dist h) (nbrs h) dist q).2) []
      apply ih _ _ inv'
      have hcard : (scanNbrs pass (sval dist h) (nbrs h) dist q).1.length
          ≤ Fintype.card Cell := by
        have := inv'.keysNodup.length_le_card
        rwa [List.length_map] at this
      simp only [List.length_cons] at hfuel
      omega

/-- In a drained invariant state, every walk from a source to `c` witnesses a
recorded value at `c` that is at most the walk's length. -/
theorem reach_recorded {nbrs : Cell → List Cell} {pass : Cell → Bool} {sources : List Cell}
    {dist : List (Cell × ℕ)} (inv : BfsInv nbrs pass sources dist [])
    {s c : Cell} {k : ℕ} (hs : s ∈ sources) (hr : ReachN nbrs pass s c k) :
    ∃ m, m ≤ k ∧ alookup dist c = some m := by
  induction hr with
  | refl => exact ⟨0, Nat.le_refl 0, inv.src0 _ hs⟩
  | step _ hnb hp ih =>
    obtain ⟨m, hm, hlm⟩ := ih
    obtain ⟨m', hm', hlm'⟩ := inv.relaxed _ m hlm (List.not_mem_nil _) _ hnb hp
    exact ⟨m', by omega, hlm'⟩

/-- Full functional correctness of the multi-source BFS: a recorded value is
exactly the minimum walk length from some source through passing cells, and a
cell is absent from the result precisely when no source reaches it. -/
theorem bfs_correct [Fintype Cell] (nbrs : Cell → List Cell) (pass : Cell → Bool)
    (sources : List Cell) (hnd : sources.Nodup) (c : Cell) :
    (∀ n, alookup (bfsRun nbrs pass sources) c = some n ↔
        IsLeast {k | ∃ s ∈ sources, ReachN nbrs pass s c k} n)
    ∧ (alookup (bfsRun nbrs pass sources) c = none ↔
        ∀ s ∈ sources, ∀ k, ¬ ReachN nbrs pass s c k) := by
  have invF : BfsInv nbrs pass sources (bfsRun nbrs pass sources) [] := by
    apply bfsLoop_inv nbrs pass sources _ _ _ (bfsInv_init nbrs pass sources hnd)
    rw [List.length_map]
    omega
  constructor
  · intro n
    constructor
    · intro hl
      constructor
      · exact invF.sound c n hl
      · rintro k ⟨s, hsm, hrk⟩
        obtain ⟨m, hmk, hlm⟩ := reach_recorded invF hsm hrk
        rw [hl] at hlm
        injection hlm with hlm
        omega
    · rintro ⟨⟨s, hsm, hrn⟩, hlb⟩
      obtain ⟨m, hmn, hlm⟩ := reach_recorded invF hsm hrn
      obtain ⟨s', hs', hr'⟩ := invF.sound c m hlm
      have hnm : n ≤ m := hlb ⟨s', hs', hr'⟩
      have : m = n := by omega
      rw [← this]
      exact hlm
  · constructor
    · intro hnone s hsm k hrk
      obtain ⟨m, _, hlm⟩ := reach_recorded invF hsm hrk
      rw [hnone] at hlm
      cases hlm
    · intro hno
      cases hcase : alookup (bfsRun nbrs pass sources) c with
      | none => rfl
      | some n =>
        obtain ⟨s, hsm, hr⟩ := invF.sound c n hcase
        exact absurd hr (hno s hsm n)

/-- Every listed source reads back step count 0 from `hex_step_distances`:
it is recorded at 0 before the loop and never overwritten. -/
theorem hex_source_zero [Fintype Cell] (nbrs : Cell → List Cell) (sources : List Cell)
    (allowed : Option (Finset Cell)) {s : Cell} (hs : s ∈ sources) :
    alookup (hex_step_distances nbrs sources allowed) s = some 0 := by
  simp only [hex_step_distances, bfsRun]
  apply bfsLoop_extends
  rw [alookup_map_pair, if_pos hs]

/-- With an empty source list the BFS does nothing and returns the empty
dict. -/
theorem hex_no_sources [Fintype Cell] (nbrs : Cell → List Cell)
    (allowed : Option (Finset Cell)) :
    hex_step_distances nbrs [] allowed = [] := by
  simp only [hex_step_distances, bfsRun, List.map_nil, List.length_nil]
  exact bfsLoop_empty_queue _ _ _ _

/-- C3: for every grid cell set `G` and every duplicate-free source set drawn
from it, the multi-source BFS `hex_step_distances` restricted by
`allowed_cells = G` records, for each reached cell, exactly the minimum number
of hex-adjacency steps from some source along walks every step of which stays
inside `G` (cells outside the grid are never traversed), and leaves cells
unreachable from every source without any value. -/
theorem C3_bfs_min_steps_within_grid [Fintype Cell] (nbrs : Cell → List Cell)
    (G : Finset Cell) (sources : List Cell) (hnd : sources.Nodup)
    (hsub : ∀ s ∈ sources, s ∈ G) (c : Cell) :
    (∀ n, alookup (hex_step_distances nbrs sources (some G)) c = some n ↔
        IsLeast {k | ∃ s ∈ sources, ReachN nbrs (fun x => decide (x ∈ G)) s c k} n)
    ∧ (alookup (hex_step_distances nbrs sources (some G)) c = none ↔
        ∀ s ∈ sources, ∀ k, ¬ ReachN nbrs (fun x => decide (x ∈ G)) s c k) := by
  by_cases hG : G = ∅
  · subst hG
    have hsrc : sources = [] := by
      cases sources with
      | nil => rfl
      | cons a t => exact absurd (hsub a (List.mem_cons_self _ _)) (Finset.not_mem_empty a)
    subst hsrc
    rw [hex_no_sources]
    constructor
    · intro n
      constructor
      · intro hl
        simp [alookup] at hl
      · rintro ⟨⟨s, hs, _⟩, _⟩
        cases hs
    · constructor
      · intro _ s hs
        exact absurd hs (List.not_mem_nil s)
      · intro _
        rfl
  · have hpe : passes (some G) = (fun x : Cell => decide (x ∈ G)) := by
      funext x
      simp [passes, hG]
    have hmain := bfs_correct nbrs (fun x : Cell => decide (x ∈ G)) sources hnd c
    simp only [hex_step_distances, hpe]
    exact hmain

/-- Witness for C3 on the two-cell ring `Fin 2` with source `0`: the theorem
yields that `1` is the least step count from the source to cell `1`. -/
theorem C3_bfs_min_steps_within_grid_witness :
    IsLeast {k | ∃ s ∈ [(0 : Fin 2)],
      ReachN (fun c => [c, c + 1]) (fun x => decide (x ∈ (Finset.univ : Finset (Fin 2)))) s 1 k}
      1 :=
  ((C3_bfs_min_steps_within_grid (fun c => [c, c + 1]) Finset.univ [0] (by decide)
    (by decide) 1).1 1).mp (by decide)

/-- C10: calling `hex_step_distances` with `allowed_cells` equal to the empty
set drops the grid restriction entirely — the Python guard
`if allowed and nb not in allowed` is skipped for a falsy empty set — so the
result coincides with the `allowed_cells = None` run. -/
theorem C10_empty_allowed_set_unrestricted [Fintype Cell] (nbrs : Cell → List Cell)
    (sources : List Cell) (_hne : sources ≠ []) :
    hex_step_distances nbrs sources (some (∅ : Finset Cell))
      = hex_step_distances nbrs sources none := by
  have hpe : passes (some (∅ : Finset Cell)) = (passes none : Cell → Bool) := by
    funext x
    simp [passes]
  simp only [hex_step_distances, hpe]

/-- Witness for C10: a concrete non-empty source list on `Fin 2`. -/
theorem C10_empty_allowed_set_unrestricted_witness :
    [(0 : Fin 2)] ≠ [] ∧
      hex_step_distances (fun c : Fin 2 => [c, c + 1]) [0] (some (∅ : Finset (Fin 2)))
        = hex_step_distances (fun c : Fin 2 => [c, c + 1]) [0] none :=
  ⟨by simp, C10_empty_allowed_set_unrestricted (fun c : Fin 2 => [c, c + 1]) [0] (by simp)⟩

end BFS

/-! ## `add_distance_columns` (`distance.py`) -/

section DistanceColumns

variable {Cell : Type} [DecidableEq Cell]

/-- One output row of `add_distance_columns`, i.e. the row built by
`df.index.map(lambda h: steps.get(h, math.nan) * step_m)` for both rock
types. `edge_m` models the external `h3.edge_length(res, "m")` (one constant
for the single-resolution grid); `step_m = edge_m * sqrt 3` is the
centre-to-centre spacing. A missing BFS entry is NaN (`none`), and
`NaN * step_m` stays NaN. -/
noncomputable def dist_row [Fintype Cell] (nbrs : Cell → List Cell) (edge_m : ℝ)
    (grid : List (GridRow Cell)) (r : GridRow Cell) : DistRow Cell :=
  { h3_id := r.h3_id
    intersects_a := r.intersects_a
    intersects_b := r.intersects_b
    dist_a := (alookup (hex_step_distances nbrs
        ((grid.filter (fun g => g.intersects_a)).map (fun g => g.h3_id))
        (some ((grid.map (fun g => g.h3_id)).toFinset))) r.h3_id).map
        (fun n => (n : ℝ) * (edge_m * Real.sqrt 3))
    dist_b := (alookup (hex_step_distances nbrs
        ((grid.filter (fun g => g.intersects_b)).map (fun g => g.h3_id))
        (some ((grid.map (fun g => g.h3_id)).toFinset))) r.h3_id).map
        (fun n => (n : ℝ) * (edge_m * Real.sqrt 3)) }

/-- `distance.add_distance_columns`: empty grids are returned unchanged with a
warning; otherwise the sources for each rock type are the tagged cells, the
BFS is restricted to the grid's own cell set, and step counts are converted
to metres. -/
noncomputable def add_distance_columns [Fintype Cell] (nbrs : Cell → List Cell) (edge_m : ℝ)
    (grid : List (GridRow Cell)) : List (DistRow Cell) :=
  if grid.isEmpty then [] else grid.map (dist_row nbrs edge_m grid)

/-- C8: every cell of the grid tagged `intersects_a` is seeded as a BFS source
at step 0, so `add_distance_columns` assigns it `dist_a = 0 * step_m = 0`
exactly; symmetrically every `intersects_b` cell gets `dist_b = 0`. -/
theorem C8_tagged_cells_get_distance_zero [Fintype Cell] (nbrs : Cell → List Cell)
    (edge_m : ℝ) (grid : List (GridRow Cell)) (r : DistRow Cell)
    (hr : r ∈ add_distance_columns nbrs edge_m grid) :
    (r.intersects_a = true → r.dist_a = some 0)
    ∧ (r.intersects_b = true → r.dist_b = some 0) := by
  rw [add_distance_columns] at hr
  by_cases hg : grid.isEmpty
  · rw [if_pos hg] at hr; cases hr
  · rw [if_neg hg] at hr
    obtain ⟨g, hgm, rfl⟩ := List.mem_map.mp hr
    constructor
    · intro ha
      have ha' : g.intersects_a = true := ha
      have hsrc : g.h3_id ∈ (grid.filter (fun g => g.intersects_a)).map (fun g => g.h3_id) :=
        List.mem_map.mpr ⟨g, List.mem_filter.mpr ⟨hgm, ha'⟩, rfl⟩
      show ((alookup (hex_step_distances nbrs
          ((grid.filter (fun g => g.intersects_a)).map (fun g => g.h3_id))
          (some ((grid.map (fun g => g.h3_id)).toFinset))) g.h3_id).map
          (fun n => (n : ℝ) * (edge_m * Real.sqrt 3))) = some 0
      rw [hex_source_zero _ _ _ hsrc]
      simp
    · intro hb
      have hb' : g.intersects_b = true := hb
      have hsrc : g.h3_id ∈ (grid.filter (fun g => g.intersects_b)).map (fun g => g.h3_id) :=
        List.mem_map.mpr ⟨g, List.mem_filter.mpr ⟨hgm, hb'⟩, rfl⟩
      show ((alookup (hex_step_distances nbrs
          ((grid.filter (fun g => g.intersects_b)).map (fun g => g.h3_id))
          (some ((grid.map (fun g => g.h3_id)).toFinset))) g.h3_id).map
          (fun n => (n : ℝ) * (edge_m * Real.sqrt 3))) = some 0
      rw [hex_source_zero _ _ _ hsrc]
      simp

/-- Witness for C8: a one-cell grid whose cell intersects rock type A reads
back `dist_a = some 0`. -/
theorem C8_tagged_cells_get_distance_zero_witness :
    (dist_row (fun _ : Fin 1 => []) 1 [⟨0, true, false⟩] ⟨0, true, false⟩).dist_a
      = some 0 := by
  have hmem : dist_row (fun _ : Fin 1 => []) (1 : ℝ) [⟨0, true, false⟩] ⟨0, true, false⟩
      ∈ add_distance_columns (fun _ : Fin 1 => []) 1 [⟨0, true, false⟩] := by
    rw [add_distance_columns]
    simp
  exact (C8_tagged_cells_get_distance_zero (fun _ : Fin 1 => []) 1 [⟨0, true, false⟩]
    _ hmem).1 rfl

end DistanceColumns

/-! ## NaN propagation through the scoring engine -/

theorem gaussianO_some (x d0 alpha : ℝ) :
    gaussianO (some x) d0 alpha = some (gaussian x d0 alpha) := rfl

theorem gaussianO_none (d0 alpha : ℝ) : gaussianO none d0 alpha = none := rfl

theorem omul_some (x y : ℝ) : omul (some x) (some y) = some (x * y) := rfl

theorem omul_none_right (a : Option ℝ) : omul a none = none := by
  cases a <;> rfl

section NoSources

variable {Cell : Type} [DecidableEq Cell]

/-- C2 (amended): if no cell of the grid is tagged for rock type B, then B's
BFS has no sources and `add_distance_columns` leaves `dist_b` undefined (NaN,
modelled `none`) for every cell — the part of the claim the code satisfies —
but `gaussian` maps that NaN to NaN, not to membership 0, so
`compute_likelihood` produces a NaN score (`none`), not 0, for every cell,
regardless of `dist_a`. -/
theorem C2_no_sources_propagates_nan [Fintype Cell] (nbrs : Cell → List Cell)
    (edge_m falloff_km alpha : ℝ) (grid : List (GridRow Cell))
    (hb : ∀ g ∈ grid, g.intersects_b = false) :
    (∀ r ∈ add_distance_columns nbrs edge_m grid, r.dist_b = none)
    ∧ (∀ r ∈ compute_likelihood falloff_km alpha (add_distance_columns nbrs edge_m grid),
        r.score = none) := by
  have hfil : grid.filter (fun g => g.intersects_b) = [] := by
    rw [List.filter_eq_nil_iff]
    intro g hg
    simp [hb g hg]
  have hdistb : ∀ r ∈ add_distance_columns nbrs edge_m grid, r.dist_b = none := by
    intro r hr
    rw [add_distance_columns] at hr
    by_cases hg : grid.isEmpty
    · rw [if_pos hg] at hr; cases hr
    · rw [if_neg hg] at hr
      obtain ⟨g, _, rfl⟩ := List.mem_map.mp hr
      show ((alookup (hex_step_distances nbrs
          ((grid.filter (fun g => g.intersects_b)).map (fun g => g.h3_id))
          (some ((grid.map (fun g => g.h3_id)).toFinset))) g.h3_id).map
          (fun n => (n : ℝ) * (edge_m * Real.sqrt 3))) = none
      rw [hfil, List.map_nil, hex_no_sources]
      rfl
  refine ⟨hdistb, ?_⟩
  intro r hr
  rw [compute_likelihood] at hr
  obtain ⟨r', hr', rfl⟩ := List.mem_map.mp hr
  show omul (gaussianO r'.dist_a (falloff_km * 1000) alpha)
      (gaussianO r'.dist_b (falloff_km * 1000) alpha) = none
  rw [hdistb r' hr', gaussianO_none, omul_none_right]

/-- Witness for C2 (amended): one-cell grid intersecting only rock type A;
`dist_b` is NaN and the score is NaN. -/
theorem C2_no_sources_propagates_nan_witness :
    (dist_row (fun _ : Fin 1 => []) 1 [⟨0, true, false⟩] ⟨0, true, false⟩).dist_b = none
    ∧ (score_row 1 2 (dist_row (fun _ : Fin 1 => []) 1
        [⟨0, true, false⟩] ⟨0, true, false⟩)).score = none := by
  have h := C2_no_sources_propagates_nan (fun _ : Fin 1 => []) 1 1 2
    [⟨0, true, false⟩] (by decide)
  have hmem : dist_row (fun _ : Fin 1 => []) (1 : ℝ) [⟨0, true, false⟩] ⟨0, true, false⟩
      ∈ add_distance_columns (fun _ : Fin 1 => []) 1 [⟨0, true, false⟩] := by
    rw [add_distance_columns]
    simp
  have hmem₂ : score_row 1 2 (dist_row (fun _ : Fin 1 => []) (1 : ℝ)
        [⟨0, true, false⟩] ⟨0, true, false⟩)
      ∈ compute_likelihood 1 2 (add_distance_columns (fun _ : Fin 1 => []) 1
        [⟨0, true, false⟩]) := by
    rw [compute_likelihood]
    exact List.mem_map.mpr ⟨_, hmem, rfl⟩
  exact ⟨h.1 _ hmem, h.2 _ hmem₂⟩

/-- C2 counterexample: a one-cell grid where rock type B has zero source
cells. The claim says the membership from the undefined distance is 0 and the
final score is 0; the code instead propagates NaN (`none`), so the score is
not `some 0` for any cell. -/
theorem C2_counterexample :
    (compute_likelihood 1 2 (add_distance_columns (fun _ : Fin 1 => []) 1
        [⟨0, true, false⟩])).map (fun r => r.score) = [none]
    ∧ (none : Option ℝ) ≠ some 0 := by
  constructor
  · have hsteps : hex_step_distances (fun _ : Fin 1 => [])
        (([(⟨0, true, false⟩ : GridRow (Fin 1))].filter
          (fun g => g.intersects_b)).map (fun g => g.h3_id))
        (some (([(⟨0, true, false⟩ : GridRow (Fin 1))].map
          (fun g => g.h3_id)).toFinset)) = [] := by
      rw [show ([(⟨0, true, false⟩ : GridRow (Fin 1))].filter
          (fun g => g.intersects_b)).map (fun g => g.h3_id) = [] from rfl]
      exact hex_no_sources _ _
    simp only [compute_likelihood, add_distance_columns, List.isEmpty, if_false,
      List.map_cons, List.map_nil, dist_row, hsteps]
    simp [score_row, omul_none_right, gaussianO_none, alookup]
  · simp

end NoSources

/-! ## Kernel properties (`score.py`) -/

/-- C7: kernel boundary values. For every positive fall-off `d0` and positive
shape exponent `alpha`: `gaussian 0 d0 = 1`, `gaussian d0 d0 = exp (-1)`,
`linear 0 d0 = 1`, `linear d0 d0 = 0`, `linear d d0 = 0` for every `d ≥ d0`,
and `linear` is monotonically non-increasing in `d`. -/
theorem C7_kernel_boundary_values (d0 alpha : ℝ) (hd0 : 0 < d0) (ha : 0 < alpha) :
    gaussian 0 d0 alpha = 1
    ∧ gaussian d0 d0 alpha = Real.exp (-1)
    ∧ linear 0 d0 = 1
    ∧ linear d0 d0 = 0
    ∧ (∀ d, d0 ≤ d → linear d d0 = 0)
    ∧ (∀ d₁ d₂, d₁ ≤ d₂ → linear d₂ d0 ≤ linear d₁ d0) := by
  refine ⟨?_, ?_, ?_, ?_, ?_, ?_⟩
  · rw [gaussian, zero_div, Real.zero_rpow (ne_of_gt ha), neg_zero, Real.exp_zero]
  · rw [gaussian, div_self (ne_of_gt hd0), Real.one_rpow]
  · rw [linear, zero_div, sub_zero]
    norm_num
  · rw [linear, div_self (ne_of_gt hd0), sub_self]
    norm_num
  · intro d hd
    have h1 : 1 - d / d0 ≤ 0 := by
      have : 1 ≤ d / d0 := (one_le_div hd0).mpr hd
      linarith
    rw [linear, max_eq_right h1]
    norm_num
  · intro d₁ d₂ h12
    have hdiv : d₁ / d0 ≤ d₂ / d0 := (div_le_div_iff_of_pos_right hd0).mpr h12
    rw [linear, linear]
    exact min_le_min (max_le_max (by linarith) le_rfl) le_rfl

/-- Witness for C7 at `d0 = 1`, `alpha = 2`, including the flat tail at
`d = 2 ≥ d0`. -/
theorem C7_kernel_boundary_values_witness :
    (0 : ℝ) < 1 ∧ (0 : ℝ) < 2
    ∧ gaussian 0 1 2 = 1 ∧ gaussian 1 1 2 = Real.exp (-1)
    ∧ linear 0 1 = 1 ∧ linear 1 1 = 0 ∧ linear 2 1 = 0 := by
  have h := C7_kernel_boundary_values 1 2 (by norm_num) (by norm_num)
  exact ⟨by norm_num, by norm_num, h.1, h.2.1, h.2.2.1, h.2.2.2.1,
    h.2.2.2.2.1 2 (by norm_num)⟩

theorem rpow_eq_zero_of_nonneg {x y : ℝ} (hx : 0 ≤ x) (h : x ^ y = 0) : x = 0 := by
  by_contra hne
  have hpos : 0 < x := lt_of_le_of_ne hx (Ne.symm hne)
  exact absurd h (ne_of_gt (Real.rpow_pos_of_pos hpos y))

section ScoreRange

variable {Cell : Type}

/-- C4 (amended): for a row whose two distances are defined (non-NaN) and
non-negative — as every metre distance produced from a BFS step count is —
and validated parameters `falloff_km > 0`, `alpha > 0`, the score computed by
`compute_likelihood`'s row function is defined, lies in `[0, 1]`, and equals
1 exactly when both distances are 0. (A NaN distance instead yields a NaN
score, outside `[0, 1]`: see the counterexample.) -/
theorem C4_score_in_unit_interval (falloff alpha a b : ℝ) (r : DistRow Cell)
    (hf : 0 < falloff) (halpha : 0 < alpha) (hda : r.dist_a = some a)
    (hdb : r.dist_b = some b) (ha : 0 ≤ a) (hb : 0 ≤ b) :
    (score_row falloff alpha r).score
        = some (gaussian a (falloff * 1000) alpha * gaussian b (falloff * 1000) alpha)
    ∧ 0 ≤ gaussian a (falloff * 1000) alpha * gaussian b (falloff * 1000) alpha
    ∧ gaussian a (falloff * 1000) alpha * gaussian b (falloff * 1000) alpha ≤ 1
    ∧ (gaussian a (falloff * 1000) alpha * gaussian b (falloff * 1000) alpha = 1
        ↔ a = 0 ∧ b = 0) := by
  have hd0 : (0 : ℝ) < falloff * 1000 := by positivity
  have hA : 0 ≤ (a / (falloff * 1000)) ^ alpha :=
    Real.rpow_nonneg (div_nonneg ha hd0.le) _
  have hB : 0 ≤ (b / (falloff * 1000)) ^ alpha :=
    Real.rpow_nonneg (div_nonneg hb hd0.le) _
  have hprod : gaussian a (falloff * 1000) alpha * gaussian b (falloff * 1000) alpha
      = Real.exp (-((a / (falloff * 1000)) ^ alpha + (b / (falloff * 1000)) ^ alpha)) := by
    rw [gaussian, gaussian, ← Real.exp_add]
    ring_nf
  refine ⟨?_, ?_, ?_, ?_⟩
  · show omul (gaussianO r.dist_a (falloff * 1000) alpha)
        (gaussianO r.dist_b (falloff * 1000) alpha) = _
    rw [hda, hdb, gaussianO_some, gaussianO_some, omul_some]
  · exact mul_nonneg (Real.exp_pos _).le (Real.exp_pos _).le
  · rw [hprod]
    exact Real.exp_le_one_iff.mpr (by linarith)
  · rw [hprod, Real.exp_eq_one_iff, neg_eq_zero]
    constructor
    · intro h0
      have hA0 : (a / (falloff * 1000)) ^ alpha = 0 := by linarith
      have hB0 : (b / (falloff * 1000)) ^ alpha = 0 := by linarith
      have ha0 : a / (falloff * 1000) = 0 :=
        rpow_eq_zero_of_nonneg (div_nonneg ha hd0.le) hA0
      have hb0 : b / (falloff * 1000) = 0 :=
        rpow_eq_zero_of_nonneg (div_nonneg hb hd0.le) hB0
      constructor
      · rcases div_eq_zero_iff.mp ha0 with h | h
        · exact h
        · exact absurd h (ne_of_gt hd0)
      · rcases div_eq_zero_iff.mp hb0 with h | h
        · exact h
        · exact absurd h (ne_of_gt hd0)
    · rintro ⟨rfl, rfl⟩
      rw [zero_div, Real.zero_rpow (ne_of_gt halpha)]
      norm_num

/-- Witness for C4 (amended) at `falloff = 1`, `alpha = 2`, both distances 0:
the score is defined, in `[0, 1]`, and equals 1 since both distances are 0. -/
theorem C4_score_in_unit_interval_witness :
    (0 : ℝ) < 1 ∧ (0 : ℝ) < 2
    ∧ ((score_row 1 2 (⟨0, true, true, some 0, some 0⟩ : DistRow (Fin 1))).score
          = some (gaussian 0 (1 * 1000) 2 * gaussian 0 (1 * 1000) 2)
        ∧ 0 ≤ gaussian 0 (1 * 1000) 2 * gaussian 0 (1 * 1000) 2
        ∧ gaussian 0 (1 * 1000) 2 * gaussian 0 (1 * 1000) 2 ≤ 1
        ∧ (gaussian 0 (1 * 1000) 2 * gaussian 0 (1 * 1000) 2 = 1
            ↔ (0 : ℝ) = 0 ∧ (0 : ℝ) = 0)) :=
  ⟨by norm_num, by norm_num,
    C4_score_in_unit_interval 1 2 0 0 (⟨0, true, true, some 0, some 0⟩ : DistRow (Fin 1))
      (by norm_num) (by norm_num) rfl rfl le_rfl le_rfl⟩

/-- C4 counterexample: a frame containing a cell whose `dist_b` is undefined
(NaN) — exactly what `add_distance_columns` produces when rock type B has no
sources — gets a NaN score from `compute_likelihood`, which is not a real
number in `[0, 1]`; so "every score lies in `[0, 1]`" fails for such input
grids. -/
theorem C4_counterexample :
    (compute_likelihood 1 2 [(⟨0, true, false, some 0, none⟩ : DistRow (Fin 1))]).map
        (fun r => r.score) = [none]
    ∧ (none : Option ℝ) ≠ some 1 ∧ Option.isSome (none : Option ℝ) = false := by
  refine ⟨?_, by simp, rfl⟩
  simp [compute_likelihood, score_row, gaussianO_none, omul_none_right]

end ScoreRange

/-! ## The claimed weighted-geometric-mean combination rule (C1) -/

/-- Modelled from the spec: the weighted fuzzy AND
`score = mu_a^w * mu_b^(1-w)` with `mu_a`, `mu_b` and `w` each clipped to
`[0, 1]` before exponentiation. The repository's own tests import a function
`weighted_and` from `prospectivity_tools.score`, but no such function exists
anywhere in the source; this definition follows the spec's words so the code's
actual combination rule can be compared against it. -/
noncomputable def weighted_and (mu_a mu_b w_a : ℝ) : ℝ :=
  min (max mu_a 0) 1 ^ min (max w_a 0) 1
    * min (max mu_b 0) 1 ^ (1 - min (max w_a 0) 1)

/-- C1: the combination rule the code actually computes is the plain product
`mu_a * mu_b`, with no weight and no clipping. On the cell
`dist_a = 0, dist_b = d0 = 1000 m` (`falloff_km = 1`, `alpha = 2`) the code
yields `score = exp (-1)`, while the claimed weighted geometric mean with
`w = weight_a = 1` yields `1`, and `exp (-1) ≠ 1`. The config validates
`weight_a` but `compute_likelihood` never reads it, and the test suite
imports the non-existent `weighted_and`. -/
theorem C1_weighted_mean_not_implemented :
    (compute_likelihood 1 2 [(⟨0, true, true, some 0, some 1000⟩ : DistRow (Fin 1))]).map
        (fun r => r.score) = [some (Real.exp (-1))]
    ∧ weighted_and 1 (Real.exp (-1)) 1 = 1
    ∧ Real.exp (-1) ≠ 1 := by
  have hg0 : gaussian 0 (1000 : ℝ) 2 = 1 := by
    rw [gaussian, zero_div, Real.zero_rpow (by norm_num), neg_zero, Real.exp_zero]
  have hg1 : gaussian 1000 (1000 : ℝ) 2 = Real.exp (-1) := by
    have hdiv : (1000 : ℝ) / 1000 = 1 := by norm_num
    rw [gaussian, hdiv, Real.one_rpow]
  refine ⟨?_, ?_, ?_⟩
  · simp only [compute_likelihood, List.map_cons, List.map_nil, score_row, gaussianO_some,
      omul_some, one_mul, hg0, hg1]
  · have hcb : min (max (Real.exp (-1)) 0) 1 = Real.exp (-1) := by
      rw [max_eq_left (Real.exp_pos _).le,
        min_eq_left (Real.exp_le_one_iff.mpr (by norm_num))]
    have hc1 : min (max (1 : ℝ) 0) 1 = 1 := by norm_num
    rw [weighted_and, hc1, hcb, Real.one_rpow, sub_self, Real.rpow_zero, one_mul]
  · intro h
    rw [Real.exp_eq_one_iff] at h
    norm_num at h

/-! ## Grid builder (`geospatial.build_grid`) -/

section GridBuild

variable {Cell : Type} [DecidableEq Cell]

/-- `geospatial.build_grid`, with its two external collaborators as
parameters: `polyfill` models `h3.polyfill_geojson` applied to the bounding
box `(west, south, east, north)`, and `aCells`/`bCells` the Cell Indexer
results for the two rock types (`all_cells.isin(...)` becomes list
membership). The `Except` result type models Python exceptions: the source
performs no validation of `bounds` and has no raise path, so every call
returns `Except.ok`. -/
def build_grid (polyfill : ℝ × ℝ × ℝ × ℝ → List Cell) (aCells bCells : List Cell)
    (bounds : ℝ × ℝ × ℝ × ℝ) : Except String (List (GridRow Cell)) :=
  Except.ok ((polyfill bounds).map (fun c =>
    { h3_id := c
      intersects_a := decide (c ∈ aCells)
      intersects_b := decide (c ∈ bCells) }))

/-- C5 (amended): `build_grid` never fails with a configuration error — it
returns `Except.ok` for every bounding box, degenerate or not, and whatever
the external enumeration does; when the enumeration of the box is empty (as
`h3.polyfill_geojson` is on a zero-area box) it silently returns an empty
grid. -/
theorem C5_build_grid_never_raises (polyfill : ℝ × ℝ × ℝ × ℝ → List Cell)
    (aCells bCells : List Cell) (bounds : ℝ × ℝ × ℝ × ℝ) :
    (build_grid polyfill aCells bCells bounds).toBool = true
    ∧ (polyfill bounds = [] →
        build_grid polyfill aCells bCells bounds = Except.ok []) := by
  constructor
  · rfl
  · intro h
    rw [build_grid, h]
    rfl

/-- Witness for C5 (amended): concrete degenerate point box `(0,0,0,0)` with
an empty enumeration. -/
theorem C5_build_grid_never_raises_witness :
    ((fun _ : ℝ × ℝ × ℝ × ℝ => ([] : List (Fin 1))) (0, 0, 0, 0) = [])
    ∧ (build_grid (fun _ : ℝ × ℝ × ℝ × ℝ => ([] : List (Fin 1))) [] []
        (0, 0, 0, 0)).toBool = true
    ∧ build_grid (fun _ : ℝ × ℝ × ℝ × ℝ => ([] : List (Fin 1))) [] [] (0, 0, 0, 0)
        = Except.ok [] := by
  have h := C5_build_grid_never_raises (fun _ : ℝ × ℝ × ℝ × ℝ => ([] : List (Fin 1)))
    [] [] (0, 0, 0, 0)
  exact ⟨rfl, h.1, h.2 rfl⟩

/-- C5 counterexample: the bounds `(0, 0, 0, 0)` have zero area
(`(east − west) * (north − south) = 0`), the enumeration of the point box is
empty, and `build_grid` returns `Except.ok []` — a silent empty grid, not a
configuration error surfaced to the caller. -/
theorem C5_counterexample :
    ((0 : ℝ) - 0) * ((0 : ℝ) - 0) = 0
    ∧ build_grid (fun _ : ℝ × ℝ × ℝ × ℝ => ([] : List (Fin 1))) [] [] (0, 0, 0, 0)
        = Except.ok [] :=
  ⟨by norm_num, rfl⟩

end GridBuild

/-! ## Cell indexer memoization (`geospatial.polys_to_h3`) -/

section CellIndexer

variable {Cell PolySet : Type} [DecidableEq Cell]

/-- `pd.unique`: distinct values, keeping the first occurrence order. -/
def uniqueFirstAux (seen : List Cell) : List Cell → List Cell
  | [] => []
  | x :: xs =>
    if x ∈ seen then uniqueFirstAux seen xs else x :: uniqueFirstAux (x :: seen) xs

/-- `pd.unique(cell_ids)`. -/
def uniqueFirst (l : List Cell) : List Cell :=
  uniqueFirstAux [] l

/-- `geospatial.polys_to_h3`: `core` models the per-geometry
`h3.polyfill_geojson` loop (the concatenated `cell_ids` before `pd.unique`);
`cache` is the contents of `__cache__/`, a map keyed by the file name
`f"{tag}_r{res}.feather"` — i.e. by `(tag, res)` only, not by the polygon
set. On a cache hit the stored series is returned as-is; on a miss the fresh
result is computed, stored and returned. The pair is (returned series, cache
state after the call). -/
def polys_to_h3 (core : PolySet → ℕ → List Cell)
    (cache : List ((String × ℕ) × List Cell)) (gdf : PolySet) (tag : String)
    (res : ℕ) : List Cell × List ((String × ℕ) × List Cell) :=
  match alookup cache (tag, res) with
  | some cells => (cells, cache)
  | none =>
    (uniqueFirst (core gdf res), cache ++ [((tag, res), uniqueFirst (core gdf res))])

/-- C6 counterexample: the cache is keyed by `(tag, resolution)` only. With a
cache entry `[2]` stored under `("a", 5)` by some other polygon set, a run on
a polygon set whose fresh computation yields `[1]` returns the stale `[2]`,
while the cache-free run returns `[1]` — so the memoization does change the
returned set. -/
theorem C6_counterexample :
    (polys_to_h3 (fun (_ : Unit) _ => [1]) [(("a", 5), [2])] () "a" 5).1 = [2]
    ∧ (polys_to_h3 (fun (_ : Unit) _ => [1]) [] () "a" 5).1 = [1]
    ∧ ([2] : List ℕ) ≠ [1] := by
  refine ⟨?_, ?_, by simp⟩
  · simp [polys_to_h3, alookup]
  · simp [polys_to_h3, alookup, uniqueFirst, uniqueFirstAux]

/-- C6 (amended): the memoization is transparent only when the cache entry
for `(tag, res)` is absent or was produced from the same polygon set: a run
that populates an empty slot followed by a rerun on the same inputs returns
exactly the cache-free result. -/
theorem C6_cache_transparent_same_polyset (core : PolySet → ℕ → List Cell)
    (cache : List ((String × ℕ) × List Cell)) (gdf : PolySet) (tag : String)
    (res : ℕ) (hmiss : alookup cache (tag, res) = none) :
    (polys_to_h3 core (polys_to_h3 core cache gdf tag res).2 gdf tag res).1
      = (polys_to_h3 core [] gdf tag res).1 := by
  have hstore : (polys_to_h3 core cache gdf tag res).2
      = cache ++ [((tag, res), uniqueFirst (core gdf res))] := by
    simp only [polys_to_h3, hmiss]
  have hhit : alookup (cache ++ [((tag, res), uniqueFirst (core gdf res))]) (tag, res)
      = some (uniqueFirst (core gdf res)) := by
    rw [alookup_append_none _ hmiss, alookup_singleton, if_pos rfl]
  rw [hstore]
  simp only [polys_to_h3, hhit, alookup]

/-- Witness for C6 (amended): cache initially empty, fresh ids `[7, 7, 9]`. -/
theorem C6_cache_transparent_same_polyset_witness :
    alookup ([] : List ((String × ℕ) × List ℕ)) ("b", 3) = none
    ∧ (polys_to_h3 (fun (_ : Unit) _ => [7, 7, 9])
          (polys_to_h3 (fun (_ : Unit) _ => [7, 7, 9]) [] () "b" 3).2 () "b" 3).1
        = (polys_to_h3 (fun (_ : Unit) _ => [7, 7, 9]) [] () "b" 3).1 :=
  ⟨rfl, C6_cache_transparent_same_polyset (fun (_ : Unit) _ => [7, 7, 9]) [] () "b" 3 rfl⟩

end CellIndexer

/-! ## Frame effects: the engines copy the grid, they do not mutate it -/

/-- The columns the two engines add beyond the grid columns. -/
inductive ExtraCol
  | distA
  | distB
  | scoreCol
deriving DecidableEq

/-- A pandas frame as the caller sees it: the grid rows plus whatever added
columns it carries, each a per-row list of float values (`none` = NaN). -/
structure Frame (Cell : Type) where
  rows : List (GridRow Cell)
  extras : List (ExtraCol × List (Option ℝ))

section FrameEffects

variable {Cell : Type} [DecidableEq Cell]

/-- `add_distance_columns` as an effect on the caller's frame. The source
begins with `df = grid.copy()` (comment: "Copy to avoid mutating caller
state") and writes only to the copy, so the pair returned here is (caller's
frame after the call, returned frame); an empty grid is returned as an
unchanged copy with no new columns. -/
noncomputable def add_distance_columns_call [Fintype Cell] (nbrs : Cell → List Cell)
    (edge_m : ℝ) (grid : Frame Cell) : Frame Cell × Frame Cell :=
  (grid,
    if grid.rows.isEmpty then grid
    else
      { rows := grid.rows
        extras := grid.extras
          ++ [(ExtraCol.distA,
                (add_distance_columns nbrs edge_m grid.rows).map (fun r => r.dist_a)),
              (ExtraCol.distB,
                (add_distance_columns nbrs edge_m grid.rows).map (fun r => r.dist_b))] })

/-- `compute_likelihood` as an effect on the caller's frame: `df = df.copy()`
then `df["score"] = score_a * score_b` on the copy, and the returned frame
keeps only `h3_id, score, intersects_a, intersects_b` — the distance columns
are dropped from the returned selection. -/
noncomputable def compute_likelihood_call (falloff_km alpha : ℝ) (df : Frame Cell) :
    Frame Cell × Frame Cell :=
  (df,
    { rows := df.rows
      extras := [(ExtraCol.scoreCol,
        List.zipWith
          (fun a b => omul (gaussianO a (falloff_km * 1000) alpha)
            (gaussianO b (falloff_km * 1000) alpha))
          ((alookup df.extras ExtraCol.distA).getD [])
          ((alookup df.extras ExtraCol.distB).getD []))] })

/-- C9 (amended): both engines copy the frame and return the enriched copy;
the caller's grid frame is left exactly as it was, rather than being
enriched in place. -/
theorem C9_engines_copy_not_mutate [Fintype Cell] (nbrs : Cell → List Cell)
    (edge_m falloff_km alpha : ℝ) (g df : Frame Cell) :
    (add_distance_columns_call nbrs edge_m g).1 = g
    ∧ (compute_likelihood_call falloff_km alpha df).1 = df :=
  ⟨rfl, rfl⟩

/-- C9 counterexample: a concrete one-cell caller frame with no added
columns. After the call the caller's frame still carries no
`dist_a`/`dist_b`/`score` column (`extras = []`), while the returned copy
does carry the new columns — refuting "the caller's grid table has been
modified to carry the new columns". -/
theorem C9_counterexample :
    (add_distance_columns_call (fun _ : Fin 1 => []) 1 ⟨[⟨0, true, false⟩], []⟩).1
        = (⟨[⟨0, true, false⟩], []⟩ : Frame (Fin 1))
    ∧ (⟨[⟨0, true, false⟩], []⟩ : Frame (Fin 1)).extras = []
    ∧ (add_distance_columns_call (fun _ : Fin 1 => []) 1
        ⟨[⟨0, true, false⟩], []⟩).2.extras ≠ []
    ∧ (compute_likelihood_call 1 2 (⟨[⟨0, true, false⟩], []⟩ : Frame (Fin 1))).1
        = (⟨[⟨0, true, false⟩], []⟩ : Frame (Fin 1)) := by
  refine ⟨rfl, rfl, ?_, rfl⟩
  simp [add_distance_columns_call]

end FrameEffects

end Prospectivity
